import Mathlib

/-!
Shallow embedding of `src/backendsutt.py`, a single-user room-booking
record keeper.  Python strings are modelled as `List Char`, Python ints as
`Int`, the `set` of booked hours as `Finset Int`, and exceptions as
`Except`.  Raising an exception aborts the operation before any mutation
that textually follows the `raise`, which the embedding reflects by
returning `Except.error` carrying no modified state; the `*_state`
wrappers give the registry/room contents after a call, failing or not.
-/

namespace Backendsutt

/-- Python strings, modelled as lists of characters. -/
abbrev Str := List Char

/-- Models Python `str.strip()`: drop whitespace from both ends. -/
def pyStrip (s : Str) : Str :=
  ((s.dropWhile Char.isWhitespace).reverse.dropWhile Char.isWhitespace).reverse

/-- Models Python `str.lower()`. -/
def pyLower (s : Str) : Str := s.map Char.toLower

/-- Models Python `s.split(";")` (single-character separator, keeps empties). -/
def pySplit (s : Str) : List Str := s.splitOn ';'

/-- Models Python `";".join(parts)`. -/
def pyJoin (parts : List Str) : Str := List.intercalate [';'] parts

/-- Decimal digits of a natural number, most significant first, by
fuelled structural recursion (`fuel > n` suffices). -/
def natToCharsFuel (fuel : Nat) (n : Nat) : List Char :=
  match fuel with
  | 0 => []
  | fuel + 1 =>
      if n < 10 then [Char.ofNat (48 + n)]
      else natToCharsFuel fuel (n / 10) ++ [Char.ofNat (48 + n % 10)]

/-- Decimal digits of a natural number, most significant first;
models the digit sequence produced by Python `str()` on a natural. -/
def natToChars (n : Nat) : List Char := natToCharsFuel (n + 1) n

/-- Models Python `str()` on an int: optional leading minus, then digits. -/
def intToChars (i : Int) : Str :=
  if i < 0 then '-' :: natToChars i.natAbs else natToChars i.toNat

/-- Value of a list of decimal digit characters. -/
def digitsToNat (l : List Char) : Nat :=
  l.foldl (fun a c => a * 10 + (c.toNat - 48)) 0

/-- Models Python `int(s)` on an already-stripped string: an optional
sign followed by one or more decimal digits; `none` models `ValueError`.
(Underscore digit separators, accepted by CPython, are not exercised by
this program's data and are not modelled.) -/
def pyIntParse (s : Str) : Option Int :=
  match s with
  | [] => none
  | c :: rest =>
      if c = '-' then
        if rest ≠ [] ∧ rest.all Char.isDigit then some (-(digitsToNat rest : Int)) else none
      else if c = '+' then
        if rest ≠ [] ∧ rest.all Char.isDigit then some (digitsToNat rest : Int) else none
      else
        if (c :: rest).all Char.isDigit then some (digitsToNat (c :: rest) : Int) else none

/-- The three domain exceptions of the program. -/
inductive PyError where
  | roomNotFoundError
  | timeslotAlreadyBookedError
  | roomAlreadyExistsError
deriving DecidableEq

/-- The `Room` data class: identifier, building, capacity, booked hours. -/
structure Room where
  room_no : Str
  building : Str
  capacity : Int
  booked_hours : Finset Int
deriving DecidableEq

/-- Models `Room.is_free_at`: true iff `hour` is not in `booked_hours`. -/
def Room.is_free_at (r : Room) (hour : Int) : Bool :=
  decide (hour ∉ r.booked_hours)

/-- Models `Room.book_hour`: raise `TimeslotAlreadyBookedError` if `hour` is
already booked, else add it to `booked_hours`. -/
def Room.book_hour (r : Room) (hour : Int) : Except PyError Room :=
  if hour ∈ r.booked_hours then Except.error PyError.timeslotAlreadyBookedError
  else Except.ok { r with booked_hours := insert hour r.booked_hours }

/-- The room contents after a `book_hour` call: on an exception the room
is as it was, since the `raise` precedes the only mutation. -/
def Room.book_hour_state (r : Room) (hour : Int) : Room :=
  match r.book_hour hour with
  | Except.ok r' => r'
  | Except.error _ => r

/-- Models `Room.booked_hours_str`: semicolon-joined ascending rendering of the
booked hours, empty when there are none. -/
def Room.booked_hours_str (r : Room) : Str :=
  if r.booked_hours = ∅ then []
  else pyJoin ((r.booked_hours.sort (· ≤ ·)).map intToChars)

/-! ### The registry (`RoomManager.rooms`)

Python's `dict` keyed on `room_no`, modelled as an insertion-ordered list
whose operations mirror `d[k] = v` (replace in place if the key exists,
else append) and `d.get`/`in`. -/

/-- The registry state: the rooms in dict insertion order. -/
abbrev Rooms := List Room

/-- Models `self.rooms[room.room_no] = room` on a Python dict. -/
def dictInsert (rs : Rooms) (room : Room) : Rooms :=
  if rs.any (fun r => r.room_no == room.room_no) then
    rs.map (fun r => if r.room_no == room.room_no then room else r)
  else rs ++ [room]

/-- Models `self.rooms[k]` lookup / `k in self.rooms`. -/
def dictFind (rs : Rooms) (k : Str) : Option Room :=
  rs.find? (fun r => r.room_no == k)

/-- Models `RoomManager.add_room`: trim the identifier, fail with
`RoomAlreadyExistsError` if present, else insert a fresh room with
trimmed identifier and building and no bookings. -/
def add_room (rs : Rooms) (room_no building : Str) (capacity : Int) :
    Except PyError Rooms :=
  let rn := pyStrip room_no
  if (dictFind rs rn).isSome then Except.error PyError.roomAlreadyExistsError
  else Except.ok (dictInsert rs { room_no := rn, building := pyStrip building,
                                  capacity := capacity, booked_hours := ∅ })

/-- Registry contents after an `add_room` call, failing or not. -/
def add_room_state (rs : Rooms) (room_no building : Str) (capacity : Int) : Rooms :=
  match add_room rs room_no building capacity with
  | Except.ok rs' => rs'
  | Except.error _ => rs

/-- Models `RoomManager.get_room`: trim the identifier, fail with
`RoomNotFoundError` if absent. -/
def get_room (rs : Rooms) (room_no : Str) : Except PyError Room :=
  let rn := pyStrip room_no
  match dictFind rs rn with
  | none => Except.error PyError.roomNotFoundError
  | some r => Except.ok r

/-- Models `RoomManager.book_room`: compose `get_room` and `book_hour`; the
booked room object is mutated in place inside the dict. -/
def book_room (rs : Rooms) (room_no : Str) (hour : Int) : Except PyError Rooms :=
  match get_room rs room_no with
  | Except.error e => Except.error e
  | Except.ok r =>
      match r.book_hour hour with
      | Except.error e => Except.error e
      | Except.ok r' => Except.ok (dictInsert rs r')

/-- Registry contents after a `book_room` call, failing or not: an
exception unwinds before any mutation, leaving the registry as it was. -/
def book_room_state (rs : Rooms) (room_no : Str) (hour : Int) : Rooms :=
  match book_room rs room_no hour with
  | Except.ok rs' => rs'
  | Except.error _ => rs

/-- Models `RoomManager.find_rooms`: keep each room passing all supplied
criteria, skipping any criterion that is `None`. -/
def find_rooms (rs : Rooms) (building : Option Str) (min_capacity : Option Int)
    (free_at_hour : Option Int) : Rooms :=
  rs.filter (fun r =>
    (match building with
     | none => true
     | some b => pyLower r.building == pyLower b) &&
    (match min_capacity with
     | none => true
     | some c => decide (c ≤ r.capacity)) &&
    (match free_at_hour with
     | none => true
     | some h => r.is_free_at h))

/-! ### Persistence (`load_from_csv` / `save_to_csv`)

The CSV file is modelled at the record level reached through Python's
`csv.DictReader`/`DictWriter`: a header row (list of column names) plus,
for each data row, the optional values of the four columns this program
reads (`row.get(name)` is `None` when the row has no value there). -/

/-- One data row as seen through `csv.DictReader.get` on the four
columns the loader reads. -/
structure CsvRow where
  room_no : Option Str
  building : Option Str
  capacity : Option Str
  booked_hours : Option Str

/-- A CSV file: its header row and its data rows. -/
structure CsvFile where
  header : List Str
  rows : List CsvRow

/-- Models `RoomManager.CSV_HEADERS`. -/
def CSV_HEADERS : List Str :=
  [['r','o','o','m','_','n','o'], ['b','u','i','l','d','i','n','g'],
   ['c','a','p','a','c','i','t','y'],
   ['b','o','o','k','e','d','_','h','o','u','r','s']]

/-- Models Python `(x or d)` for a string-or-`None` value `x`: the
default is used when `x` is `None` or the empty (falsy) string. -/
def orDefault (v : Option Str) (d : Str) : Str :=
  match v with
  | none => d
  | some s => if s = [] then d else s

/-- One iteration of the booked-hours loop inside `load_from_csv`: strip
the piece, skip it when empty, keep it when it is an integer within
`[0, 23]`, drop it otherwise. -/
def bookedHoursStep (acc : Finset Int) (piece : Str) : Finset Int :=
  let p := pyStrip piece
  if p = [] then acc
  else
    match pyIntParse p with
    | none => acc
    | some h => if 0 ≤ h ∧ h ≤ 23 then insert h acc else acc

/-- The booked-hours field parser inside `load_from_csv`: split on `;`,
strip each piece, skip empty pieces, keep integer pieces within
`[0, 23]`, collect into a set. -/
def parseBookedHours (booked_str : Str) : Finset Int :=
  if booked_str = [] then ∅
  else (pySplit booked_str).foldl bookedHoursStep ∅

/-- The loop body of `load_from_csv` for one data row: extract and strip
the four fields, skip the row when the identifier is empty, coerce an
unparseable capacity to `0`, parse the booked hours, and store the room
under its identifier. -/
def load_row (rs : Rooms) (row : CsvRow) : Rooms :=
  let room_no := pyStrip (orDefault row.room_no [])
  let building := pyStrip (orDefault row.building [])
  let capacity_str := pyStrip (orDefault row.capacity ['0'])
  let booked_str := pyStrip (orDefault row.booked_hours [])
  if room_no = [] then rs
  else
    let capacity := match pyIntParse capacity_str with
      | some c => c
      | none => 0
    dictInsert rs { room_no := room_no, building := building,
                    capacity := capacity, booked_hours := parseBookedHours booked_str }

/-- Models `RoomManager.load_from_csv`: `none` models a missing file (start
empty, no warning); a present file whose header lacks a required column
is skipped wholesale with a warning (the `Bool` component models whether
the warning was printed); otherwise each row is folded into the
registry.  (The outer `except` clause for I/O errors mid-read is not
modelled: the record-level file model cannot fail while being read.) -/
def load_from_csv (rs : Rooms) (file : Option CsvFile) : Rooms × Bool :=
  match file with
  | none => (rs, false)
  | some f =>
      if CSV_HEADERS.any (fun h => !(f.header.contains h)) then (rs, true)
      else (f.rows.foldl load_row rs, false)

/-- Models `RoomManager.save_to_csv`: write the header then one record per room
in registry order, rendering the capacity with `str` and the booked
hours with `booked_hours_str`. -/
def save_to_csv (rs : Rooms) : CsvFile :=
  { header := CSV_HEADERS,
    rows := rs.map (fun r =>
      { room_no := some r.room_no, building := some r.building,
        capacity := some (intToChars r.capacity),
        booked_hours := some r.booked_hours_str }) }

/-! ### Sequences of core operations -/

/-- A core operation on the registry, with arbitrary arguments:
`load_from_csv`, `add_room`, `book_room`, or a direct `book_hour` on the
room at a given position of the registry. -/
inductive Op where
  | load (file : Option CsvFile)
  | add (room_no building : Str) (capacity : Int)
  | book (room_no : Str) (hour : Int)
  | bookDirect (i : Nat) (hour : Int)

/-- The registry contents after running one core operation (a raised
domain exception leaves the registry unchanged). -/
def apply_op (rs : Rooms) (op : Op) : Rooms :=
  match op with
  | Op.load f => (load_from_csv rs f).1
  | Op.add rn b c => add_room_state rs rn b c
  | Op.book rn h => book_room_state rs rn h
  | Op.bookDirect i h =>
      match rs[i]? with
      | none => rs
      | some r => rs.set i (r.book_hour_state h)

/-- Registry states reachable from the empty registry through any
sequence of core operations with arbitrary arguments. -/
inductive Reach : Rooms → Prop where
  | nil : Reach []
  | step {rs : Rooms} (op : Op) : Reach rs → Reach (apply_op rs op)

/-- The capacity a loaded row yields. -/
def rowCapacity (row : CsvRow) : Int :=
  match pyIntParse (pyStrip (orDefault row.capacity ['0'])) with
  | some c => c
  | none => 0

/-- A core operation restricted to the arguments the front end feeds the
core: booked hours within `[0, 23]`, non-negative capacities (for a
load, every row's parsed capacity non-negative). -/
def opGuarded (op : Op) : Prop :=
  match op with
  | Op.load none => True
  | Op.load (some f) => ∀ row ∈ f.rows, 0 ≤ rowCapacity row
  | Op.add _ _ c => 0 ≤ c
  | Op.book _ h => 0 ≤ h ∧ h ≤ 23
  | Op.bookDirect _ h => 0 ≤ h ∧ h ≤ 23

/-- Registry states reachable from the empty registry through core
operations with front-end-validated arguments. -/
inductive GReach : Rooms → Prop where
  | nil : GReach []
  | step {rs : Rooms} (op : Op) : opGuarded op → GReach rs → GReach (apply_op rs op)

/-- The invariant of the spec: every room has a non-negative capacity
and all its booked hours lie in `[0, 23]`. -/
def RoomsInv (rs : Rooms) : Prop :=
  ∀ r ∈ rs, 0 ≤ r.capacity ∧ ∀ h ∈ r.booked_hours, 0 ≤ h ∧ h ≤ 23

end Backendsutt

deriving instance DecidableEq for Except

namespace Backendsutt

/-! ### Helper lemmas -/

theorem dropWhile_eq_self_of_not (p : Char → Bool) (l : List Char)
    (h : ∀ c ∈ l, p c = false) : l.dropWhile p = l := by
  cases l with
  | nil => rfl
  | cons a l => simp [List.dropWhile_cons, h a (List.mem_cons_self a l)]

theorem pyStrip_eq_self {s : Str} (h : ∀ c ∈ s, ¬ c.isWhitespace) : pyStrip s = s := by
  have h' : ∀ c ∈ s, c.isWhitespace = false := fun c hc => by
    simpa using h c hc
  rw [pyStrip, dropWhile_eq_self_of_not _ _ h', dropWhile_eq_self_of_not, List.reverse_reverse]
  intro c hc
  exact h' c (List.mem_reverse.mp hc)

-- Round-trip facts about the int print/parse pair.

theorem natToCharsFuel_ne_nil (fuel n : Nat) (h : n < fuel) : natToCharsFuel fuel n ≠ [] := by
  cases fuel with
  | zero => omega
  | succ fuel =>
    rw [natToCharsFuel]
    split
    · simp
    · simp

theorem natToChars_ne_nil (n : Nat) : natToChars n ≠ [] :=
  natToCharsFuel_ne_nil _ _ (by omega)

theorem natToCharsFuel_digits (fuel : Nat) :
    ∀ n, n < fuel → ∀ c ∈ natToCharsFuel fuel n, c.isDigit ∧ c ≠ ';' ∧ ¬ c.isWhitespace := by
  induction fuel with
  | zero => omega
  | succ fuel ih =>
    intro n hn
    rw [natToCharsFuel]
    split
    · rename_i h
      intro c hc
      simp only [List.mem_singleton] at hc
      subst hc
      interval_cases n <;> simp [Char.isDigit, Char.isWhitespace, Char.ofNat] <;> decide
    · rename_i h
      intro c hc
      simp only [List.mem_append, List.mem_singleton] at hc
      rcases hc with hc | hc
      · exact ih (n / 10) (by omega) c hc
      · subst hc
        have h10 : n % 10 < 10 := Nat.mod_lt _ (by omega)
        interval_cases h : n % 10 <;> simp_all [Char.isDigit, Char.isWhitespace, Char.ofNat] <;> decide

theorem natToChars_digits (n : Nat) :
    ∀ c ∈ natToChars n, c.isDigit ∧ c ≠ ';' ∧ ¬ c.isWhitespace :=
  natToCharsFuel_digits (n + 1) n (by omega)

theorem digitsToNat_append_digit (l : List Char) (c : Char) :
    digitsToNat (l ++ [c]) = digitsToNat l * 10 + (c.toNat - 48) := by
  simp [digitsToNat, List.foldl_append]

theorem digitsToNat_natToCharsFuel (fuel : Nat) :
    ∀ n, n < fuel → digitsToNat (natToCharsFuel fuel n) = n := by
  induction fuel with
  | zero => omega
  | succ fuel ih =>
    intro n hn
    rw [natToCharsFuel]
    split
    · rename_i h
      interval_cases n <;> decide
    · rename_i h
      rw [digitsToNat_append_digit, ih (n / 10) (by omega)]
      have h10 : n % 10 < 10 := Nat.mod_lt _ (by omega)
      have : (Char.ofNat (48 + n % 10)).toNat = 48 + n % 10 := by
        interval_cases h : n % 10 <;> decide
      omega

theorem digitsToNat_natToChars (n : Nat) : digitsToNat (natToChars n) = n :=
  digitsToNat_natToCharsFuel (n + 1) n (by omega)

theorem pyIntParse_intToChars (i : Int) : pyIntParse (intToChars i) = some i := by
  by_cases hneg : i < 0
  · have hall := natToChars_digits i.natAbs
    have hcond : natToChars i.natAbs ≠ [] ∧ (natToChars i.natAbs).all Char.isDigit := by
      refine ⟨natToChars_ne_nil _, ?_⟩
      rw [List.all_eq_true]
      intro c hc
      exact (hall c hc).1
    rw [intToChars, if_pos hneg, pyIntParse]
    simp only [hcond.1, hcond.2, ne_eq, not_false_eq_true, and_self, if_true, if_pos rfl,
      digitsToNat_natToChars]
    congr 1
    omega
  · have hall := natToChars_digits i.toNat
    simp only [intToChars, if_neg hneg]
    have hne := natToChars_ne_nil i.toNat
    rcases hlist : natToChars i.toNat with _ | ⟨c, rest⟩
    · exact absurd hlist hne
    · have hcmem : c ∈ natToChars i.toNat := by rw [hlist]; exact List.mem_cons_self _ _
      have hcd := (hall c hcmem).1
      have hcm : c ≠ '-' := by
        rintro rfl; simp [Char.isDigit] at hcd
      have hcp : c ≠ '+' := by
        rintro rfl; simp [Char.isDigit] at hcd
      rw [pyIntParse, if_neg hcm, if_neg hcp, if_pos, ← hlist, digitsToNat_natToChars]
      · congr 1
        omega
      · rw [List.all_eq_true]
        intro x hx
        have : x ∈ natToChars i.toNat := by rw [hlist]; exact hx
        exact (hall x this).1

/-! ### The claims -/

/-- C1: for every room and every hour `h` in `[0, 23]` not in the room's
booked hours, `book_hour h` succeeds; afterwards `is_free_at h` is false,
a second `book_hour h` on the same room raises
`TimeslotAlreadyBookedError`, and the failing call leaves the booked
hours unchanged. -/
theorem C1_book_hour_success_then_conflict (r : Room) (h : Int)
    (_hlo : 0 ≤ h) (_hhi : h ≤ 23) (hfree : h ∉ r.booked_hours) :
    ∃ r', r.book_hour h = Except.ok r' ∧
      r'.is_free_at h = false ∧
      r'.book_hour h = Except.error PyError.timeslotAlreadyBookedError ∧
      r'.book_hour_state h = r' := by
  refine ⟨{ r with booked_hours := insert h r.booked_hours }, ?_, ?_, ?_, ?_⟩
  · rw [Room.book_hour, if_neg hfree]
  · simp [Room.is_free_at]
  · rw [Room.book_hour, if_pos (Finset.mem_insert_self h r.booked_hours)]
  · rw [Room.book_hour_state, Room.book_hour,
      if_pos (Finset.mem_insert_self h r.booked_hours)]

/-- Witness for C1 at a concrete room and hour. -/
theorem C1_book_hour_success_then_conflict_witness :
    ∃ r', (Room.mk ['R','1'] ['B'] 3 ∅).book_hour 5 = Except.ok r' ∧
      r'.is_free_at 5 = false ∧
      r'.book_hour 5 = Except.error PyError.timeslotAlreadyBookedError ∧
      r'.book_hour_state 5 = r' :=
  C1_book_hour_success_then_conflict (Room.mk ['R','1'] ['B'] 3 ∅) 5
    (by decide) (by decide) (by decide)

/-- C3: `find_rooms` returns exactly the rooms satisfying every supplied
criterion (case-insensitive exact location match, inclusive capacity
lower bound, freeness at the given hour), a `none` criterion imposes no
filter, and `find_rooms` with no criteria returns all rooms. -/
theorem C3_find_rooms_conjunction (rs : Rooms) (b : Option Str) (mc : Option Int)
    (fa : Option Int) :
    (∀ r : Room, r ∈ find_rooms rs b mc fa ↔ r ∈ rs ∧
        (∀ s, b = some s → pyLower r.building = pyLower s) ∧
        (∀ c, mc = some c → c ≤ r.capacity) ∧
        (∀ h, fa = some h → r.is_free_at h = true)) ∧
    find_rooms rs none none none = rs := by
  constructor
  · intro r
    rw [find_rooms, List.mem_filter]
    cases b <;> cases mc <;> cases fa <;>
      simp [and_assoc]
  · rw [find_rooms]
    simp

/-- C4: `add_room` fails with `RoomAlreadyExistsError` iff the trimmed
identifier is already a key; a failing call leaves the registry
unchanged; a successful call appends a room with trimmed identifier and
trimmed location and empty bookings, after which a second `add_room`
with the same identifier always fails regardless of the other
arguments. -/
theorem C4_add_room_duplicate_check (rs : Rooms) (room_no building : Str)
    (capacity : Int) :
    (add_room rs room_no building capacity = Except.error PyError.roomAlreadyExistsError ↔
        (dictFind rs (pyStrip room_no)).isSome = true) ∧
    (∀ e, add_room rs room_no building capacity = Except.error e →
        add_room_state rs room_no building capacity = rs) ∧
    (∀ rs', add_room rs room_no building capacity = Except.ok rs' →
        rs' = rs ++ [{ room_no := pyStrip room_no, building := pyStrip building,
                       capacity := capacity, booked_hours := ∅ }] ∧
        ∀ building2 capacity2, add_room rs' room_no building2 capacity2 =
            Except.error PyError.roomAlreadyExistsError) := by
  by_cases hmem : (dictFind rs (pyStrip room_no)).isSome
  · refine ⟨by simp [add_room, hmem], ?_, ?_⟩
    · intro e _
      rw [add_room_state]
      simp [add_room, hmem]
    · intro rs' h
      rw [add_room] at h
      simp [hmem] at h
  · have hnone : dictFind rs (pyStrip room_no) = none :=
      Option.not_isSome_iff_eq_none.mp hmem
    have hany : rs.any (fun r => r.room_no == pyStrip room_no) = false := by
      rw [← Bool.not_eq_true, List.any_eq_true]
      rintro ⟨x, hx, hpx⟩
      have := List.find?_eq_none.mp hnone x hx
      exact this hpx
    have hins : dictInsert rs
        { room_no := pyStrip room_no, building := pyStrip building,
          capacity := capacity, booked_hours := ∅ } =
        rs ++ [{ room_no := pyStrip room_no, building := pyStrip building,
                 capacity := capacity, booked_hours := ∅ }] := by
      rw [dictInsert, hany]
      simp
    have hok : add_room rs room_no building capacity = Except.ok
        (rs ++ [{ room_no := pyStrip room_no, building := pyStrip building,
                  capacity := capacity, booked_hours := ∅ }]) := by
      rw [add_room]
      simp [hmem, hins]
    refine ⟨by simp [hok, hnone], ?_, ?_⟩
    · intro e he
      rw [hok] at he
      exact absurd he (by simp)
    · intro rs' h
      rw [hok] at h
      have hrs' : rs' = rs ++ [{ room_no := pyStrip room_no, building := pyStrip building,
                                 capacity := capacity, booked_hours := ∅ }] := by
        simpa using h.symm
      refine ⟨hrs', ?_⟩
      intro building2 capacity2
      have hfound : (dictFind rs' (pyStrip room_no)).isSome := by
        rw [dictFind, List.find?_isSome]
        refine ⟨{ room_no := pyStrip room_no, building := pyStrip building,
                  capacity := capacity, booked_hours := ∅ }, ?_, by simp⟩
        rw [hrs']
        simp
      simp [add_room, hfound]

/-- Witness for C4 at a concrete registry and arguments. -/
theorem C4_add_room_duplicate_check_witness :
    add_room ([Room.mk ['R'] ['B'] 2 ∅]) ['R'] ['C'] 7 =
      Except.error PyError.roomAlreadyExistsError :=
  (C4_add_room_duplicate_check [Room.mk ['R'] ['B'] 2 ∅] ['R'] ['C'] 7).1.mpr (by decide)

/-- C6: a file whose header lacks one of the four required column names
is rejected wholesale: the registry is left as it was (empty at
construction) and only a warning is surfaced; a missing file likewise
yields the untouched registry with no warning and no error. -/
theorem C6_header_rejection (rs : Rooms) :
    load_from_csv rs none = (rs, false) ∧
    ∀ f : CsvFile, (¬ ∀ h ∈ CSV_HEADERS, h ∈ f.header) →
      load_from_csv rs (some f) = (rs, true) := by
  refine ⟨rfl, ?_⟩
  intro f hbad
  rw [load_from_csv, if_pos]
  rw [List.any_eq_true]
  push_neg at hbad
  obtain ⟨h, hmem, hnot⟩ := hbad
  refine ⟨h, hmem, ?_⟩
  simp only [Bool.not_eq_true', ← Bool.not_eq_true]
  intro hcon
  exact hnot (by simpa using hcon)

/-- Witness for C6 at a concrete header missing `building`. -/
theorem C6_header_rejection_witness :
    load_from_csv [] (some ⟨[['r','o','o','m','_','n','o']], []⟩) = ([], true) :=
  (C6_header_rejection []).2 ⟨[['r','o','o','m','_','n','o']], []⟩ (by decide)

/-- C10: `book_room` raises `RoomNotFoundError` exactly when the trimmed
identifier is absent, `TimeslotAlreadyBookedError` exactly when the room
exists but the hour is already booked, and every failing call leaves the
registry exactly as it was. -/
theorem C10_book_room_atomic_failure (rs : Rooms) (room_no : Str) (hour : Int) :
    (book_room rs room_no hour = Except.error PyError.roomNotFoundError ↔
        dictFind rs (pyStrip room_no) = none) ∧
    (book_room rs room_no hour = Except.error PyError.timeslotAlreadyBookedError ↔
        ∃ r, dictFind rs (pyStrip room_no) = some r ∧ hour ∈ r.booked_hours) ∧
    (∀ e, book_room rs room_no hour = Except.error e →
        book_room_state rs room_no hour = rs) := by
  rcases hfind : dictFind rs (pyStrip room_no) with _ | r
  · have hbr : book_room rs room_no hour = Except.error PyError.roomNotFoundError := by
      rw [book_room, get_room]
      simp [hfind]
    refine ⟨by simp [hbr, hfind], by simp [hbr], ?_⟩
    intro e _
    rw [book_room_state, hbr]
  · by_cases hb : hour ∈ r.booked_hours
    · have hbr : book_room rs room_no hour =
          Except.error PyError.timeslotAlreadyBookedError := by
        rw [book_room, get_room]
        simp [hfind, Room.book_hour, hb]
      refine ⟨by simp [hbr, hfind], ?_, ?_⟩
      · simp only [hbr, hfind]
        constructor
        · intro _
          exact ⟨r, rfl, hb⟩
        · intro _
          trivial
      · intro e _
        rw [book_room_state, hbr]
    · have hbr : book_room rs room_no hour = Except.ok
          (dictInsert rs { r with booked_hours := insert hour r.booked_hours }) := by
        rw [book_room, get_room]
        simp [hfind, Room.book_hour, hb]
      refine ⟨by simp [hbr, hfind], ?_, ?_⟩
      · simp only [hbr, hfind]
        constructor
        · intro hcon
          exact absurd hcon (by simp)
        · rintro ⟨r', hr', hmem⟩
          obtain rfl : r = r' := by simpa using hr'
          exact absurd hmem hb
      · intro e he
        rw [hbr] at he
        exact absurd he (by simp)

/-- Witness for C10: a failing `book_room` on a concrete registry leaves
it unchanged. -/
theorem C10_book_room_atomic_failure_witness :
    book_room_state [] ['R'] 5 = [] :=
  (C10_book_room_atomic_failure [] ['R'] 5).2.2 PyError.roomNotFoundError (by decide)

/-! ### Row tolerance helpers (for C5, C9) -/

theorem mem_bookedHoursStep (acc : Finset Int) (p : Str) (h : Int) :
    h ∈ bookedHoursStep acc p ↔
      h ∈ acc ∨ (pyIntParse (pyStrip p) = some h ∧ 0 ≤ h ∧ h ≤ 23) := by
  rw [bookedHoursStep]
  by_cases hp : pyStrip p = []
  · have hnone : pyIntParse ([] : Str) = none := rfl
    simp [hp, hnone]
  · rw [if_neg hp]
    cases hparse : pyIntParse (pyStrip p) with
    | none => simp
    | some v =>
      have hred : (match some v with
          | none => acc
          | some h => if 0 ≤ h ∧ h ≤ 23 then insert h acc else acc) =
          if 0 ≤ v ∧ v ≤ 23 then insert v acc else acc := rfl
      rw [hred]
      by_cases hr : 0 ≤ v ∧ v ≤ 23
      · rw [if_pos hr]
        constructor
        · intro hmem
          rcases Finset.mem_insert.mp hmem with rfl | hmem
          · exact Or.inr ⟨rfl, hr⟩
          · exact Or.inl hmem
        · rintro (hmem | ⟨hv, _⟩)
          · exact Finset.mem_insert_of_mem hmem
          · obtain rfl : v = h := by simpa using hv
            exact Finset.mem_insert_self _ _
      · rw [if_neg hr]
        constructor
        · exact Or.inl
        · rintro (hmem | ⟨hv, hrange⟩)
          · exact hmem
          · obtain rfl : v = h := by simpa using hv
            exact absurd hrange hr

theorem mem_bookedHoursFold (l : List Str) (h : Int) : ∀ acc : Finset Int,
    h ∈ l.foldl bookedHoursStep acc ↔
      h ∈ acc ∨ ∃ p ∈ l, pyIntParse (pyStrip p) = some h ∧ 0 ≤ h ∧ h ≤ 23 := by
  induction l with
  | nil => simp
  | cons a l ih =>
    intro acc
    rw [List.foldl_cons, ih, mem_bookedHoursStep]
    constructor
    · rintro ((hmem | hgood) | ⟨p, hp, hgood⟩)
      · exact Or.inl hmem
      · exact Or.inr ⟨a, List.mem_cons_self a l, hgood⟩
      · exact Or.inr ⟨p, List.mem_cons_of_mem a hp, hgood⟩
    · rintro (hmem | ⟨p, hp, hgood⟩)
      · exact Or.inl (Or.inl hmem)
      · rcases List.mem_cons.mp hp with rfl | hp
        · exact Or.inl (Or.inr hgood)
        · exact Or.inr ⟨p, hp, hgood⟩

theorem mem_parseBookedHours (s : Str) (h : Int) :
    h ∈ parseBookedHours s ↔
      ∃ p ∈ pySplit s, pyIntParse (pyStrip p) = some h ∧ 0 ≤ h ∧ h ≤ 23 := by
  rw [parseBookedHours]
  by_cases hs : s = []
  · subst hs
    have hsplit : pySplit ([] : Str) = [[]] := rfl
    have hnone : pyIntParse ([] : Str) = none := rfl
    have hstrip : pyStrip ([] : Str) = [] := rfl
    simp [hsplit, hstrip, hnone]
  · rw [if_neg hs, mem_bookedHoursFold]
    simp

theorem mem_dictInsert {rs : Rooms} {room r' : Room} (h : r' ∈ dictInsert rs room) :
    r' ∈ rs ∨ r' = room := by
  rw [dictInsert] at h
  split at h
  · obtain ⟨x, hx, hfx⟩ := List.mem_map.mp h
    by_cases hkey : x.room_no == room.room_no
    · rw [if_pos hkey] at hfx
      exact Or.inr hfx.symm
    · rw [if_neg hkey] at hfx
      exact Or.inl (hfx ▸ hx)
  · rcases List.mem_append.mp h with hmem | hmem
    · exact Or.inl hmem
    · exact Or.inr (List.mem_singleton.mp hmem)

theorem load_row_ne_nil {rs : Rooms} {row : CsvRow}
    (hrs : ∀ r ∈ rs, r.room_no ≠ []) :
    ∀ r ∈ load_row rs row, r.room_no ≠ [] := by
  intro r hr
  rw [load_row] at hr
  split at hr
  · exact hrs r hr
  · rename_i hid
    rcases mem_dictInsert hr with hmem | rfl
    · exact hrs r hmem
    · exact hid

theorem load_fold_ne_nil (rows : List CsvRow) : ∀ rs : Rooms,
    (∀ r ∈ rs, r.room_no ≠ []) →
    ∀ r ∈ rows.foldl load_row rs, r.room_no ≠ [] := by
  induction rows with
  | nil => intro rs hrs; exact hrs
  | cons row rows ih =>
    intro rs hrs
    rw [List.foldl_cons]
    exact ih _ (load_row_ne_nil hrs)

/-- C5: during load, a row whose stripped identifier is empty is skipped
entirely; a capacity field that does not parse as an integer is coerced
to `0`; an hour token survives iff it parses as an integer in `[0, 23]`,
the other tokens of the same field being dropped individually; the field
`"5;99;abc;7"` yields exactly `{5, 7}`. -/
theorem C5_row_level_tolerance :
    (∀ (rs : Rooms) (row : CsvRow), pyStrip (orDefault row.room_no []) = [] →
        load_row rs row = rs) ∧
    (∀ (rs : Rooms) (row : CsvRow),
        pyStrip (orDefault row.room_no []) ≠ [] →
        pyIntParse (pyStrip (orDefault row.capacity ['0'])) = none →
        ∃ r, load_row rs row = dictInsert rs r ∧ r.capacity = 0 ∧
          r.room_no = pyStrip (orDefault row.room_no [])) ∧
    (∀ (s : Str) (h : Int), h ∈ parseBookedHours s ↔
        ∃ p ∈ pySplit s, pyIntParse (pyStrip p) = some h ∧ 0 ≤ h ∧ h ≤ 23) ∧
    parseBookedHours ['5', ';', '9', '9', ';', 'a', 'b', 'c', ';', '7'] =
      ({5, 7} : Finset Int) := by
  refine ⟨?_, ?_, mem_parseBookedHours, by decide⟩
  · intro rs row hempty
    rw [load_row, if_pos hempty]
  · intro rs row hid hcap
    refine ⟨{ room_no := pyStrip (orDefault row.room_no []),
              building := pyStrip (orDefault row.building []),
              capacity := 0,
              booked_hours := parseBookedHours (pyStrip (orDefault row.booked_hours [])) },
            ?_, rfl, rfl⟩
    rw [load_row, if_neg hid, hcap]

/-- Witness for C5: an all-whitespace identifier row is skipped, and a
malformed capacity is stored as `0`. -/
theorem C5_row_level_tolerance_witness :
    load_row [] ⟨some [' '], none, none, none⟩ = [] ∧
    ∃ r, load_row [] ⟨some ['r'], none, some ['x'], none⟩ = dictInsert [] r ∧
      r.capacity = 0 ∧ r.room_no = pyStrip (orDefault (some ['r']) []) :=
  ⟨C5_row_level_tolerance.1 [] ⟨some [' '], none, none, none⟩ (by decide),
   C5_row_level_tolerance.2.1 [] ⟨some ['r'], none, some ['x'], none⟩
     (by decide) (by decide)⟩

/-- C9: `add_room` does not reject a whitespace-only identifier: when
the empty-string key is absent it succeeds and stores a room keyed by
the empty string, and a subsequent save-then-load silently drops that
room (the loaded registry has no empty-identifier room at all). -/
theorem C9_whitespace_identifier_dropped (rs : Rooms) (room_no building : Str)
    (capacity : Int) (hws : pyStrip room_no = [])
    (habs : dictFind rs [] = none) :
    add_room rs room_no building capacity = Except.ok
      (rs ++ [{ room_no := [], building := pyStrip building,
                capacity := capacity, booked_hours := ∅ }]) ∧
    ∀ rs' : Rooms, add_room rs room_no building capacity = Except.ok rs' →
      dictFind ((load_from_csv [] (some (save_to_csv rs'))).1) [] = none := by
  have hmem : ¬ (dictFind rs (pyStrip room_no)).isSome := by
    rw [hws, habs]
    simp
  have hany : rs.any (fun r => r.room_no == pyStrip room_no) = false := by
    rw [← Bool.not_eq_true, List.any_eq_true]
    rintro ⟨x, hx, hpx⟩
    have := List.find?_eq_none.mp (hws ▸ habs) x hx
    exact this hpx
  have hany' : (rs.any fun r => r.room_no == ([] : Str)) = false := by
    rw [← hws]
    exact hany
  have hins : dictInsert rs
      { room_no := ([] : Str), building := pyStrip building,
        capacity := capacity, booked_hours := (∅ : Finset Int) } =
      rs ++ [{ room_no := [], building := pyStrip building,
               capacity := capacity, booked_hours := ∅ }] := by
    rw [dictInsert]
    have hc : (rs.any fun r => r.room_no ==
        ({ room_no := ([] : Str), building := pyStrip building,
           capacity := capacity, booked_hours := (∅ : Finset Int) } : Room).room_no) = false :=
      hany'
    rw [hc]
    simp
  have hok : add_room rs room_no building capacity = Except.ok
      (rs ++ [{ room_no := [], building := pyStrip building,
                capacity := capacity, booked_hours := ∅ }]) := by
    simp [add_room, hws, habs, hins]
  refine ⟨hok, ?_⟩
  intro rs' hrs'
  rw [hok] at hrs'
  have hloaded : ∀ r ∈ (load_from_csv [] (some (save_to_csv rs'))).1, r.room_no ≠ [] := by
    rw [load_from_csv]
    split
    · intro r hr
      exact absurd hr (List.not_mem_nil r)
    · exact load_fold_ne_nil _ [] (by intro r hr; exact absurd hr (List.not_mem_nil r))
  rw [dictFind, List.find?_eq_none]
  intro x hx
  simp only [beq_iff_eq]
  exact hloaded x hx

/-- Witness for C9 at a concrete whitespace identifier. -/
theorem C9_whitespace_identifier_dropped_witness :
    add_room [] [' '] ['B'] 2 = Except.ok
      [{ room_no := [], building := ['B'], capacity := 2, booked_hours := ∅ }] ∧
    ∀ rs' : Rooms, add_room [] [' '] ['B'] 2 = Except.ok rs' →
      dictFind ((load_from_csv [] (some (save_to_csv rs'))).1) [] = none := by
  have h := C9_whitespace_identifier_dropped [] [' '] ['B'] 2 (by decide) (by decide)
  have hb : pyStrip ['B'] = ['B'] := by decide
  constructor
  · rw [h.1, hb]
    simp
  · exact h.2

/-! ### Save/load round trip helpers (for C2) -/

theorem orDefault_some_nil (s : Str) : orDefault (some s) [] = s := by
  show (if s = [] then ([] : Str) else s) = s
  split <;> simp_all

theorem orDefault_some_ne {s : Str} (h : s ≠ []) (d : Str) : orDefault (some s) d = s := by
  show (if s = [] then d else s) = s
  rw [if_neg h]

theorem intToChars_ne_nil (i : Int) : intToChars i ≠ [] := by
  rw [intToChars]
  split
  · simp
  · exact natToChars_ne_nil _

theorem intToChars_chars (i : Int) :
    ∀ c ∈ intToChars i, ¬ c.isWhitespace ∧ c ≠ ';' := by
  rw [intToChars]
  split
  · intro c hc
    rcases List.mem_cons.mp hc with rfl | hc
    · exact ⟨by decide, by decide⟩
    · have := natToChars_digits _ c hc
      exact ⟨this.2.2, this.2.1⟩
  · intro c hc
    have := natToChars_digits _ c hc
    exact ⟨this.2.2, this.2.1⟩

theorem pyStrip_intToChars (i : Int) : pyStrip (intToChars i) = intToChars i :=
  pyStrip_eq_self (fun c hc => (intToChars_chars i c hc).1)

theorem pyJoin_singleton (p : Str) : pyJoin [p] = p := by
  rw [pyJoin, List.intercalate, List.intersperse_singleton]
  simp

theorem pyJoin_cons_cons (p q : Str) (rest : List Str) :
    pyJoin (p :: q :: rest) = p ++ ';' :: pyJoin (q :: rest) := by
  rw [pyJoin, List.intercalate, List.intersperse_cons_cons]
  rw [pyJoin, List.intercalate]
  simp

theorem mem_pyJoin {c : Char} : ∀ {parts : List Str}, c ∈ pyJoin parts →
    c = ';' ∨ ∃ p ∈ parts, c ∈ p := by
  intro parts
  induction parts with
  | nil => intro h; exact absurd h (by rw [pyJoin]; simp [List.intercalate])
  | cons p parts ih =>
    cases parts with
    | nil =>
      rw [pyJoin_singleton]
      intro h
      exact Or.inr ⟨p, List.mem_singleton_self p, h⟩
    | cons q rest =>
      rw [pyJoin_cons_cons]
      intro h
      rcases List.mem_append.mp h with h | h
      · exact Or.inr ⟨p, List.mem_cons_self _ _, h⟩
      · rcases List.mem_cons.mp h with rfl | h
        · exact Or.inl rfl
        · rcases ih h with h | ⟨x, hx, hcx⟩
          · exact Or.inl h
          · exact Or.inr ⟨x, List.mem_cons_of_mem _ hx, hcx⟩

theorem pyJoin_ne_nil {p : Str} (hp : p ≠ []) (rest : List Str) :
    pyJoin (p :: rest) ≠ [] := by
  cases rest with
  | nil => rw [pyJoin_singleton]; exact hp
  | cons q rest =>
    rw [pyJoin_cons_cons]
    simp

theorem fold_insert_eq_union (l : List Int) : ∀ acc : Finset Int,
    l.foldl (fun acc h => insert h acc) acc = acc ∪ l.toFinset := by
  induction l with
  | nil => intro acc; simp
  | cons a l ih =>
    intro acc
    rw [List.foldl_cons, ih, List.toFinset_cons, Finset.union_insert,
      Finset.insert_union]

theorem fold_step_good (l : List Int) : ∀ acc : Finset Int,
    (∀ h ∈ l, 0 ≤ h ∧ h ≤ 23) →
    (l.map intToChars).foldl bookedHoursStep acc =
      l.foldl (fun acc h => insert h acc) acc := by
  induction l with
  | nil => intro acc _; rfl
  | cons a l ih =>
    intro acc hl
    rw [List.map_cons, List.foldl_cons, List.foldl_cons]
    have hstep : bookedHoursStep acc (intToChars a) = insert a acc := by
      rw [bookedHoursStep]
      simp only [pyStrip_intToChars]
      rw [if_neg (intToChars_ne_nil a), pyIntParse_intToChars]
      exact if_pos (hl a (List.mem_cons_self _ _))
    rw [hstep]
    exact ih _ (fun h hh => hl h (List.mem_cons_of_mem _ hh))

theorem parse_booked_hours_str (r : Room)
    (hh : ∀ h ∈ r.booked_hours, 0 ≤ h ∧ h ≤ 23) :
    parseBookedHours r.booked_hours_str = r.booked_hours := by
  rw [Room.booked_hours_str]
  by_cases hempty : r.booked_hours = ∅
  · rw [if_pos hempty, hempty]
    rfl
  · rw [if_neg hempty]
    rcases hsort : r.booked_hours.sort (· ≤ ·) with _ | ⟨a, rest⟩
    · exfalso
      apply hempty
      have := Finset.sort_toFinset (· ≤ ·) r.booked_hours
      rw [hsort] at this
      simpa using this.symm
    · have hane : intToChars a ≠ [] := intToChars_ne_nil a
      have hjoin_ne : pyJoin ((a :: rest).map intToChars) ≠ [] := by
        rw [List.map_cons]
        exact pyJoin_ne_nil hane _
      rw [parseBookedHours, ← hsort]
      rw [hsort, if_neg hjoin_ne]
      have hsplit : pySplit (pyJoin ((a :: rest).map intToChars)) =
          (a :: rest).map intToChars := by
        rw [pySplit, pyJoin]
        refine List.splitOn_intercalate _ ';' ?_ (by simp)
        intro l hl
        obtain ⟨x, _, rfl⟩ := List.mem_map.mp hl
        intro hsemi
        exact (intToChars_chars x ';' hsemi).2 rfl
      rw [hsplit]
      have hrange : ∀ h ∈ a :: rest, 0 ≤ h ∧ h ≤ 23 := by
        intro h hmem
        apply hh
        rw [← Finset.mem_sort (· ≤ ·), hsort]
        exact hmem
      rw [fold_step_good _ _ hrange, fold_insert_eq_union]
      have : (a :: rest).toFinset = r.booked_hours := by
        rw [← hsort]
        exact Finset.sort_toFinset _ _
      rw [this]
      exact Finset.empty_union _

theorem pyStrip_booked_hours_str (r : Room) :
    pyStrip r.booked_hours_str = r.booked_hours_str := by
  apply pyStrip_eq_self
  intro c hc
  rw [Room.booked_hours_str] at hc
  split at hc
  · exact absurd hc (List.not_mem_nil c)
  · rcases mem_pyJoin hc with rfl | ⟨p, hp, hcp⟩
    · decide
    · obtain ⟨x, _, rfl⟩ := List.mem_map.mp hp
      exact (intToChars_chars x c hcp).1

theorem load_row_save_row (acc : Rooms) (r : Room)
    (hid1 : pyStrip r.room_no = r.room_no) (hid2 : r.room_no ≠ [])
    (hb : pyStrip r.building = r.building)
    (hh : ∀ h ∈ r.booked_hours, 0 ≤ h ∧ h ≤ 23) :
    load_row acc { room_no := some r.room_no, building := some r.building,
                   capacity := some (intToChars r.capacity),
                   booked_hours := some r.booked_hours_str } = dictInsert acc r := by
  have e1 : pyStrip (orDefault (some r.room_no) []) = r.room_no := by
    rw [orDefault_some_nil]
    exact hid1
  have e2 : pyStrip (orDefault (some r.building) []) = r.building := by
    rw [orDefault_some_nil]
    exact hb
  have e3 : pyStrip (orDefault (some (intToChars r.capacity)) ['0']) =
      intToChars r.capacity := by
    rw [orDefault_some_ne (intToChars_ne_nil _), pyStrip_intToChars]
  have e4 : pyStrip (orDefault (some r.booked_hours_str) []) = r.booked_hours_str := by
    rw [orDefault_some_nil]
    exact pyStrip_booked_hours_str r
  simp only [load_row, e1, e2, e3, e4]
  rw [if_neg hid2, pyIntParse_intToChars, parse_booked_hours_str r hh]

theorem dictInsert_append {acc : Rooms} {room : Room}
    (h : ∀ a ∈ acc, a.room_no ≠ room.room_no) :
    dictInsert acc room = acc ++ [room] := by
  rw [dictInsert]
  have hany : (acc.any fun r => r.room_no == room.room_no) = false := by
    rw [← Bool.not_eq_true, List.any_eq_true]
    rintro ⟨x, hx, hpx⟩
    exact h x hx (by simpa using hpx)
  rw [hany]
  simp

theorem save_load_fold (rs : Rooms) : ∀ acc : Rooms,
    (∀ r ∈ rs, pyStrip r.room_no = r.room_no ∧ r.room_no ≠ [] ∧
      pyStrip r.building = r.building ∧ ∀ h ∈ r.booked_hours, 0 ≤ h ∧ h ≤ 23) →
    (rs.map Room.room_no).Nodup →
    (∀ r ∈ rs, ∀ a ∈ acc, a.room_no ≠ r.room_no) →
    (rs.map (fun r => ({ room_no := some r.room_no, building := some r.building,
                         capacity := some (intToChars r.capacity),
                         booked_hours := some r.booked_hours_str } : CsvRow))).foldl
        load_row acc = acc ++ rs := by
  induction rs with
  | nil =>
    intro acc _ _ _
    simp
  | cons r rs ih =>
    intro acc hall hnodup hdisj
    obtain ⟨h1, h2, h3, h4⟩ := hall r (List.mem_cons_self _ _)
    rw [List.map_cons, List.foldl_cons, load_row_save_row acc r h1 h2 h3 h4,
      dictInsert_append (hdisj r (List.mem_cons_self _ _))]
    have hnotin : r.room_no ∉ rs.map Room.room_no := by
      have := hnodup
      rw [List.map_cons, List.nodup_cons] at this
      exact this.1
    rw [ih (acc ++ [r])
      (fun x hx => hall x (List.mem_cons_of_mem _ hx))
      (by rw [List.map_cons, List.nodup_cons] at hnodup; exact hnodup.2)
      ?_]
    · rw [List.append_assoc]
      rfl
    · intro x hx a ha
      rcases List.mem_append.mp ha with ha | ha
      · exact hdisj x (List.mem_cons_of_mem _ hx) a ha
      · obtain rfl : a = r := List.mem_singleton.mp ha
        intro hcon
        exact hnotin (hcon ▸ List.mem_map_of_mem Room.room_no hx)

/-- C2 counterexample: a registry holding the room created by
`add_room("   ", "B", 1)` — keyed by the empty string — does not survive
a save-then-load round trip: the loaded registry is empty, so the set of
identifiers differs. -/
theorem C2_counterexample :
    add_room [] [' '] ['B'] 1 =
      Except.ok [{ room_no := [], building := ['B'], capacity := 1, booked_hours := ∅ }] ∧
    ([{ room_no := [], building := ['B'], capacity := 1, booked_hours := ∅ }] : Rooms) ≠ [] ∧
    (load_from_csv [] (some (save_to_csv
      [{ room_no := [], building := ['B'], capacity := 1, booked_hours := ∅ }]))).1 = [] :=
  ⟨by decide, by decide, by decide⟩

/-- C2 (amended): for every registry whose rooms have non-empty,
whitespace-trimmed, pairwise-distinct identifiers, whitespace-trimmed
locations, and booked hours all within `[0, 23]`, saving and then
loading into a fresh empty registry reproduces the registry exactly
(hence identical identifiers, locations, capacities, and booked-hour
sets), with no warning. -/
theorem C2_save_load_roundtrip (rs : Rooms)
    (hall : ∀ r ∈ rs, pyStrip r.room_no = r.room_no ∧ r.room_no ≠ [] ∧
      pyStrip r.building = r.building ∧ ∀ h ∈ r.booked_hours, 0 ≤ h ∧ h ≤ 23)
    (hnodup : (rs.map Room.room_no).Nodup) :
    load_from_csv [] (some (save_to_csv rs)) = (rs, false) := by
  rw [load_from_csv]
  have hheader : (CSV_HEADERS.any fun h => !((save_to_csv rs).header.contains h)) = false := by
    show (CSV_HEADERS.any fun h => !(CSV_HEADERS.contains h)) = false
    decide
  rw [if_neg (by rw [hheader]; simp)]
  have hrows : (save_to_csv rs).rows =
      rs.map (fun r => ({ room_no := some r.room_no, building := some r.building,
                          capacity := some (intToChars r.capacity),
                          booked_hours := some r.booked_hours_str } : CsvRow)) := rfl
  rw [hrows, save_load_fold rs [] hall hnodup (by intro r _ a ha; exact absurd ha (List.not_mem_nil a))]
  rfl

/-- Witness for C2 at a concrete well-formed registry. -/
theorem C2_save_load_roundtrip_witness :
    load_from_csv [] (some (save_to_csv
      [{ room_no := ['R', '1'], building := ['M', 'a', 'i', 'n'], capacity := 30,
         booked_hours := ({9} : Finset Int) }])) =
      ([{ room_no := ['R', '1'], building := ['M', 'a', 'i', 'n'], capacity := 30,
          booked_hours := ({9} : Finset Int) }], false) :=
  C2_save_load_roundtrip _ (by decide) (by decide)

/-! ### Reachability invariant helpers (for C7, C8) -/


theorem book_hour_state_spec (r : Room) (h : Int) :
    (r.book_hour_state h).room_no = r.room_no ∧
    (r.book_hour_state h).capacity = r.capacity ∧
    ((r.book_hour_state h).booked_hours = r.booked_hours ∨
      (r.book_hour_state h).booked_hours = insert h r.booked_hours) := by
  rw [Room.book_hour_state, Room.book_hour]
  by_cases hb : h ∈ r.booked_hours
  · rw [if_pos hb]
    exact ⟨rfl, rfl, Or.inl rfl⟩
  · rw [if_neg hb]
    exact ⟨rfl, rfl, Or.inr rfl⟩

theorem add_room_state_cases (rs : Rooms) (rn b : Str) (c : Int) :
    add_room_state rs rn b c = rs ∨
    ((rs.any fun r => r.room_no == pyStrip rn) = false ∧
      add_room_state rs rn b c = rs ++
        [{ room_no := pyStrip rn, building := pyStrip b,
           capacity := c, booked_hours := ∅ }]) := by
  by_cases hm : (dictFind rs (pyStrip rn)).isSome
  · left
    simp [add_room_state, add_room, hm]
  · right
    have hnone : dictFind rs (pyStrip rn) = none :=
      Option.not_isSome_iff_eq_none.mp hm
    have hany : (rs.any fun r => r.room_no == pyStrip rn) = false := by
      rw [← Bool.not_eq_true, List.any_eq_true]
      rintro ⟨x, hx, hpx⟩
      exact List.find?_eq_none.mp hnone x hx hpx
    refine ⟨hany, ?_⟩
    have hins : dictInsert rs
        { room_no := pyStrip rn, building := pyStrip b,
          capacity := c, booked_hours := ∅ } = rs ++
        [{ room_no := pyStrip rn, building := pyStrip b,
           capacity := c, booked_hours := ∅ }] :=
      dictInsert_append (fun a ha hcon =>
        List.find?_eq_none.mp hnone a ha (by simpa using hcon))
    simp [add_room_state, add_room, hm, hins]

theorem book_room_state_cases (rs : Rooms) (rn : Str) (h : Int) :
    book_room_state rs rn h = rs ∨
    ∃ r, dictFind rs (pyStrip rn) = some r ∧ h ∉ r.booked_hours ∧
      book_room_state rs rn h =
        dictInsert rs { r with booked_hours := insert h r.booked_hours } := by
  rcases hfind : dictFind rs (pyStrip rn) with _ | r
  · left
    rw [book_room_state, book_room, get_room]
    simp [hfind]
  · by_cases hb : h ∈ r.booked_hours
    · left
      rw [book_room_state, book_room, get_room]
      simp [hfind, Room.book_hour, hb]
    · right
      refine ⟨r, rfl, hb, ?_⟩
      rw [book_room_state, book_room, get_room]
      simp [hfind, Room.book_hour, hb]

theorem set_self_of_getElem? {α : Type} (l : List α) : ∀ (i : Nat) (a : α),
    l[i]? = some a → l.set i a = l := by
  induction l with
  | nil =>
    intro i a h
    simp at h
  | cons x l ih =>
    intro i a h
    cases i with
    | zero =>
      obtain rfl : x = a := by simpa using h
      simp
    | succ i =>
      simp only [List.getElem?_cons_succ] at h
      simp [ih i a h]

theorem key_inj {rs : Rooms} (hnodup : (rs.map Room.room_no).Nodup) {a b : Room}
    (ha : a ∈ rs) (hb : b ∈ rs) (hk : a.room_no = b.room_no) : a = b :=
  List.inj_on_of_nodup_map hnodup ha hb hk

theorem dictInsert_keys_of_present {rs : Rooms} {room : Room}
    (h : (rs.any fun r => r.room_no == room.room_no) = true) :
    (dictInsert rs room).map Room.room_no = rs.map Room.room_no := by
  rw [dictInsert, if_pos h, List.map_map]
  apply List.map_congr_left
  intro x _
  simp only [Function.comp_apply]
  split
  · rename_i heq
    exact ((by simpa using heq : x.room_no = room.room_no)).symm
  · rfl

theorem dictInsert_keys_nodup {rs : Rooms} {room : Room}
    (h : (rs.map Room.room_no).Nodup) :
    ((dictInsert rs room).map Room.room_no).Nodup := by
  by_cases hany : (rs.any fun r => r.room_no == room.room_no) = true
  · rw [dictInsert_keys_of_present hany]
    exact h
  · rw [dictInsert, if_neg hany, List.map_append]
    refine List.Nodup.append h (List.nodup_singleton _) ?_
    intro x hx hx'
    obtain rfl : x = room.room_no := by simpa using hx'
    apply hany
    rw [List.any_eq_true]
    obtain ⟨y, hy, hyx⟩ := List.mem_map.mp hx
    exact ⟨y, hy, by simp [hyx]⟩

theorem load_row_keys_nodup {rs : Rooms} {row : CsvRow}
    (h : (rs.map Room.room_no).Nodup) :
    ((load_row rs row).map Room.room_no).Nodup := by
  rw [load_row]
  split
  · exact h
  · exact dictInsert_keys_nodup h

theorem load_fold_keys_nodup (rows : List CsvRow) : ∀ rs : Rooms,
    (rs.map Room.room_no).Nodup →
    ((rows.foldl load_row rs).map Room.room_no).Nodup := by
  induction rows with
  | nil => intro rs h; exact h
  | cons row rows ih =>
    intro rs h
    rw [List.foldl_cons]
    exact ih _ (load_row_keys_nodup h)

theorem apply_op_keys_nodup {rs : Rooms} (op : Op)
    (h : (rs.map Room.room_no).Nodup) :
    ((apply_op rs op).map Room.room_no).Nodup := by
  cases op with
  | load f =>
    cases f with
    | none => exact h
    | some f =>
      rw [apply_op, load_from_csv]
      split
      · exact h
      · exact load_fold_keys_nodup _ _ h
  | add rn b c =>
    rcases add_room_state_cases rs rn b c with heq | ⟨hany, heq⟩
    · rw [apply_op, heq]
      exact h
    · have hins : dictInsert rs
          { room_no := pyStrip rn, building := pyStrip b,
            capacity := c, booked_hours := ∅ } = rs ++
          [{ room_no := pyStrip rn, building := pyStrip b,
             capacity := c, booked_hours := ∅ }] := by
        rw [dictInsert, hany]
        simp
      rw [apply_op, heq, ← hins]
      exact dictInsert_keys_nodup h
  | book rn hr =>
    rcases book_room_state_cases rs rn hr with heq | ⟨r, _, _, heq⟩
    · rw [apply_op, heq]
      exact h
    · rw [apply_op, heq]
      exact dictInsert_keys_nodup h
  | bookDirect i hr =>
    rw [apply_op]
    rcases hget : rs[i]? with _ | r
    · exact h
    · have hkey : (Room.book_hour_state r hr).room_no = r.room_no :=
        (book_hour_state_spec r hr).1
      rw [List.map_set, hkey]
      have hgm : (rs.map Room.room_no)[i]? = some r.room_no := by
        rw [List.getElem?_map, hget]
        rfl
      rw [set_self_of_getElem? _ i _ hgm]
      exact h

theorem reach_keys_nodup {rs : Rooms} (h : Reach rs) :
    (rs.map Room.room_no).Nodup := by
  induction h with
  | nil => simp
  | step op _ ih => exact apply_op_keys_nodup op ih

theorem roomsInv_dictInsert {rs : Rooms} {room : Room} (hinv : RoomsInv rs)
    (hcap : 0 ≤ room.capacity)
    (hhrs : ∀ h ∈ room.booked_hours, 0 ≤ h ∧ h ≤ 23) :
    RoomsInv (dictInsert rs room) := by
  intro r hr
  rcases mem_dictInsert hr with hmem | rfl
  · exact hinv r hmem
  · exact ⟨hcap, hhrs⟩

theorem roomsInv_load_row {rs : Rooms} {row : CsvRow} (hinv : RoomsInv rs)
    (hcap : 0 ≤ rowCapacity row) : RoomsInv (load_row rs row) := by
  rw [load_row]
  split
  · exact hinv
  · apply roomsInv_dictInsert hinv hcap
    intro h hh
    obtain ⟨p, _, _, hrange⟩ := (mem_parseBookedHours _ h).mp hh
    exact hrange

theorem roomsInv_load_fold (rows : List CsvRow) : ∀ rs : Rooms,
    RoomsInv rs → (∀ row ∈ rows, 0 ≤ rowCapacity row) →
    RoomsInv (rows.foldl load_row rs) := by
  induction rows with
  | nil => intro rs hinv _; exact hinv
  | cons row rows ih =>
    intro rs hinv hcap
    rw [List.foldl_cons]
    exact ih _ (roomsInv_load_row hinv (hcap row (List.mem_cons_self _ _)))
      (fun x hx => hcap x (List.mem_cons_of_mem _ hx))

theorem roomsInv_apply_op {rs : Rooms} {op : Op} (hinv : RoomsInv rs)
    (hg : opGuarded op) : RoomsInv (apply_op rs op) := by
  cases op with
  | load f =>
    cases f with
    | none => exact hinv
    | some f =>
      rw [apply_op, load_from_csv]
      split
      · exact hinv
      · exact roomsInv_load_fold _ _ hinv hg
  | add rn b c =>
    rcases add_room_state_cases rs rn b c with heq | ⟨hany, heq⟩
    · rw [apply_op, heq]
      exact hinv
    · have hins : dictInsert rs
          { room_no := pyStrip rn, building := pyStrip b,
            capacity := c, booked_hours := ∅ } = rs ++
          [{ room_no := pyStrip rn, building := pyStrip b,
             capacity := c, booked_hours := ∅ }] := by
        rw [dictInsert, hany]
        simp
      rw [apply_op, heq, ← hins]
      refine roomsInv_dictInsert hinv ?_ ?_
      · exact hg
      · intro h hh
        exact absurd hh (Finset.not_mem_empty h)
  | book rn hr =>
    rcases book_room_state_cases rs rn hr with heq | ⟨r, hfind, _, heq⟩
    · rw [apply_op, heq]
      exact hinv
    · rw [apply_op, heq]
      have hrmem : r ∈ rs := List.mem_of_find?_eq_some hfind
      refine roomsInv_dictInsert hinv ?_ ?_
      · exact (hinv r hrmem).1
      · intro h hh
        rcases Finset.mem_insert.mp hh with rfl | hh
        · exact hg
        · exact (hinv r hrmem).2 h hh
  | bookDirect i hr =>
    rw [apply_op]
    rcases hget : rs[i]? with _ | r
    · exact hinv
    · intro x hx
      have hrmem : r ∈ rs := List.getElem?_mem hget
      obtain ⟨hkey, hcap, hhrs⟩ := book_hour_state_spec r hr
      rcases List.mem_or_eq_of_mem_set hx with hmem | rfl
      · exact hinv x hmem
      · refine ⟨hcap ▸ (hinv r hrmem).1, ?_⟩
        intro h hh
        rcases hhrs with hsame | hins
        · exact (hinv r hrmem).2 h (hsame ▸ hh)
        · rw [hins] at hh
          rcases Finset.mem_insert.mp hh with rfl | hh
          · exact hg
          · exact (hinv r hrmem).2 h hh

theorem greach_roomsInv {rs : Rooms} (h : GReach rs) : RoomsInv rs := by
  induction h with
  | nil => intro r hr; exact absurd hr (List.not_mem_nil r)
  | step op hg _ ih => exact roomsInv_apply_op ih hg

theorem op_monotone {rs : Rooms} (hnodup : (rs.map Room.room_no).Nodup) (op : Op)
    (hnl : ∀ f, op ≠ Op.load f) (r : Room) (hr : r ∈ rs) :
    ∃ r' ∈ apply_op rs op, r'.room_no = r.room_no ∧
      r.booked_hours ⊆ r'.booked_hours := by
  cases op with
  | load f => exact absurd rfl (hnl f)
  | add rn b c =>
    rcases add_room_state_cases rs rn b c with heq | ⟨_, heq⟩
    · rw [apply_op, heq]
      exact ⟨r, hr, rfl, Finset.Subset.refl _⟩
    · rw [apply_op, heq]
      exact ⟨r, List.mem_append_left _ hr, rfl, Finset.Subset.refl _⟩
  | book rn hh =>
    rcases book_room_state_cases rs rn hh with heq | ⟨r0, hfind, hnotb, heq⟩
    · rw [apply_op, heq]
      exact ⟨r, hr, rfl, Finset.Subset.refl _⟩
    · rw [apply_op, heq]
      have hr0mem : r0 ∈ rs := List.mem_of_find?_eq_some hfind
      have hany : (rs.any fun x => x.room_no ==
          ({ r0 with booked_hours := insert hh r0.booked_hours } : Room).room_no) = true := by
        rw [List.any_eq_true]
        exact ⟨r0, hr0mem, by simp⟩
      rw [dictInsert, if_pos hany]
      by_cases hk : r.room_no = r0.room_no
      · obtain rfl : r = r0 := key_inj hnodup hr hr0mem hk
        refine ⟨{ r with booked_hours := insert hh r.booked_hours }, ?_, rfl,
          Finset.subset_insert _ _⟩
        have hmem := List.mem_map_of_mem
          (fun x => if x.room_no ==
              ({ r with booked_hours := insert hh r.booked_hours } : Room).room_no
            then ({ r with booked_hours := insert hh r.booked_hours } : Room) else x) hr
        simpa using hmem
      · refine ⟨r, ?_, rfl, Finset.Subset.refl _⟩
        have hmem := List.mem_map_of_mem
          (fun x => if x.room_no ==
              ({ r0 with booked_hours := insert hh r0.booked_hours } : Room).room_no
            then ({ r0 with booked_hours := insert hh r0.booked_hours } : Room) else x) hr
        simpa [hk] using hmem
  | bookDirect i hh =>
    rw [apply_op]
    rcases hget : rs[i]? with _ | r0
    · exact ⟨r, hr, rfl, Finset.Subset.refl _⟩
    · obtain ⟨j, hj, hjr⟩ := List.mem_iff_getElem.mp hr
      by_cases hij : j = i
      · subst hij
        have hr0 : r0 = r := by
          rw [List.getElem?_eq_getElem hj] at hget
          simpa [hjr] using hget.symm
        subst hr0
        obtain ⟨hkey, _, hhrs⟩ := book_hour_state_spec r0 hh
        refine ⟨r0.book_hour_state hh, ?_, hkey, ?_⟩
        · have hlen : j < (rs.set j (r0.book_hour_state hh)).length := by
            rw [List.length_set]
            exact hj
          have hset : (rs.set j (r0.book_hour_state hh))[j] = r0.book_hour_state hh :=
            List.getElem_set_self hlen
          exact hset ▸ List.getElem_mem hlen
        · rcases hhrs with hsame | hins
          · rw [hsame]
          · rw [hins]
            exact Finset.subset_insert _ _
      · refine ⟨r, ?_, rfl, Finset.Subset.refl _⟩
        have hlen : j < (rs.set i (r0.book_hour_state hh)).length := by
          rw [List.length_set]
          exact hj
        have hset : (rs.set i (r0.book_hour_state hh))[j] = rs[j] :=
          List.getElem_set_ne (fun hcon => hij hcon.symm) hlen
        rw [hjr] at hset
        exact hset ▸ List.getElem_mem hlen

/-- C7 counterexample: with arbitrary arguments the core operations do
reach a registry whose room has a negative capacity and a booked hour
outside `[0, 23]` — `add_room("R", "B", -1)` followed by
`book_room("R", 99)`. -/
theorem C7_counterexample :
    Reach [Room.mk ['R'] ['B'] (-1) ({99} : Finset Int)] ∧
    Room.mk ['R'] ['B'] (-1) ({99} : Finset Int) ∈
      ([Room.mk ['R'] ['B'] (-1) ({99} : Finset Int)] : Rooms) ∧
    ¬ 0 ≤ (Room.mk ['R'] ['B'] (-1) ({99} : Finset Int)).capacity ∧
    (99 : Int) ∈ (Room.mk ['R'] ['B'] (-1) ({99} : Finset Int)).booked_hours ∧
    ¬ ((0 : Int) ≤ 99 ∧ (99 : Int) ≤ 23) := by
  refine ⟨?_, by decide, by decide, by decide, by decide⟩
  have h1 : apply_op [] (Op.add ['R'] ['B'] (-1)) = [Room.mk ['R'] ['B'] (-1) ∅] := by
    decide
  have h2 : apply_op [Room.mk ['R'] ['B'] (-1) ∅] (Op.book ['R'] 99) =
      [Room.mk ['R'] ['B'] (-1) ({99} : Finset Int)] := by
    decide
  have hreach := Reach.step (Op.book ['R'] 99)
    (Reach.step (Op.add ['R'] ['B'] (-1)) Reach.nil)
  rw [h1, h2] at hreach
  exact hreach

/-- C7 (amended): when every `book` hour lies in `[0, 23]` and every
capacity entering the registry (from `add_room` or a loaded row) is
non-negative, every reachable room has a non-negative capacity and
booked hours within `[0, 23]`; and every operation other than a load
only grows each room's booked-hour set (on a registry with distinct
identifiers, as every reachable registry is). -/
theorem C7_guarded_invariants :
    (∀ rs : Rooms, GReach rs → ∀ r ∈ rs,
        0 ≤ r.capacity ∧ ∀ h ∈ r.booked_hours, 0 ≤ h ∧ h ≤ 23) ∧
    (∀ (rs : Rooms) (op : Op), (rs.map Room.room_no).Nodup →
        (∀ f, op ≠ Op.load f) →
        ∀ r ∈ rs, ∃ r' ∈ apply_op rs op, r'.room_no = r.room_no ∧
          r.booked_hours ⊆ r'.booked_hours) := by
  constructor
  · intro rs hg
    exact greach_roomsInv hg
  · intro rs op hnodup hnl r hr
    exact op_monotone hnodup op hnl r hr

/-- Witness for C7 at a concrete guarded derivation and a concrete
booking step. -/
theorem C7_guarded_invariants_witness :
    (0 ≤ (Room.mk ['R'] ['B'] 5 ∅).capacity ∧
      ∀ h ∈ (Room.mk ['R'] ['B'] 5 ∅).booked_hours, 0 ≤ h ∧ h ≤ 23) ∧
    (∃ r' ∈ apply_op [Room.mk ['R'] ['B'] 5 ∅] (Op.book ['R'] 9),
      r'.room_no = (Room.mk ['R'] ['B'] 5 ∅).room_no ∧
      (Room.mk ['R'] ['B'] 5 ∅).booked_hours ⊆ r'.booked_hours) := by
  have h1 : apply_op [] (Op.add ['R'] ['B'] 5) = [Room.mk ['R'] ['B'] 5 ∅] := by
    decide
  have hg : GReach [Room.mk ['R'] ['B'] 5 ∅] :=
    h1 ▸ GReach.step (Op.add ['R'] ['B'] 5)
      (by show (0 : Int) ≤ 5; norm_num) GReach.nil
  constructor
  · exact C7_guarded_invariants.1 _ hg _ (List.mem_singleton_self _)
  · exact C7_guarded_invariants.2 [Room.mk ['R'] ['B'] 5 ∅] (Op.book ['R'] 9)
      (by decide) (by intro f hcon; cases hcon) _ (List.mem_singleton_self _)

/-- C8 counterexample: the core operations can book an out-of-range
hour, after which `is_free_at` reports it as not free — so the claim
fails for rooms reachable with arbitrary arguments. -/
theorem C8_counterexample :
    Reach [Room.mk ['S'] ['B'] 3 ({99} : Finset Int)] ∧
    ¬ ((0 : Int) ≤ 99 ∧ (99 : Int) ≤ 23) ∧
    (Room.mk ['S'] ['B'] 3 ({99} : Finset Int)).is_free_at 99 = false := by
  refine ⟨?_, by decide, by decide⟩
  have h1 : apply_op [] (Op.add ['S'] ['B'] 3) = [Room.mk ['S'] ['B'] 3 ∅] := by
    decide
  have h2 : apply_op [Room.mk ['S'] ['B'] 3 ∅] (Op.book ['S'] 99) =
      [Room.mk ['S'] ['B'] 3 ({99} : Finset Int)] := by
    decide
  have hreach := Reach.step (Op.book ['S'] 99)
    (Reach.step (Op.add ['S'] ['B'] 3) Reach.nil)
  rw [h1, h2] at hreach
  exact hreach

/-- C8 (amended): for every room of a registry reachable through core
operations whose booking hours are front-end-validated (within
`[0, 23]`), `is_free_at h` returns true for every hour `h` outside
`[0, 23]`. -/
theorem C8_out_of_range_hours_free (rs : Rooms) (hreach : GReach rs)
    (r : Room) (hr : r ∈ rs) (h : Int) (hout : h < 0 ∨ 23 < h) :
    r.is_free_at h = true := by
  have hinv := greach_roomsInv hreach r hr
  have hnot : h ∉ r.booked_hours := by
    intro hmem
    obtain ⟨h0, h23⟩ := hinv.2 h hmem
    rcases hout with hout | hout <;> omega
  simp [Room.is_free_at, hnot]

/-- Witness for C8 at a concrete guarded derivation and hour `99`. -/
theorem C8_out_of_range_hours_free_witness :
    (Room.mk ['S'] ['B'] 3 ∅).is_free_at 99 = true := by
  have h1 : apply_op [] (Op.add ['S'] ['B'] 3) = [Room.mk ['S'] ['B'] 3 ∅] := by
    decide
  have hg : GReach [Room.mk ['S'] ['B'] 3 ∅] :=
    h1 ▸ GReach.step (Op.add ['S'] ['B'] 3)
      (by show (0 : Int) ≤ 3; norm_num) GReach.nil
  exact C8_out_of_range_hours_free _ hg _ (List.mem_singleton_self _) 99
    (by norm_num)

end Backendsutt
